import Mathlib

/-!
# Verification of the area-preserving country-rescale core (src/script.js)

Shallow embedding of the core logic of the "True Size of Countries" demo.
Geographic coordinates are modelled as real numbers; the floating-point
arithmetic of the JavaScript source is idealised as exact real arithmetic.

The two library routines the source calls, `L.GeometryUtil.geodesicArea`
and `layer.getCenter()`, are not part of this repository's sources; they
are modelled from the spec (see their doc comments).
-/

namespace TrueSize

/-- A geographic point: latitude and longitude in degrees
(spec §3 GeoPoint, Leaflet's `L.latLng`). -/
structure LatLng where
  lat : ℝ
  lng : ℝ

/-- A ring: an ordered sequence of points (spec §3 Ring). -/
abbrev Ring := List LatLng

/-- Degrees-to-radians factor `d2r = Math.PI / 180` used by the geodesic
area formula. -/
noncomputable def d2r : ℝ := Real.pi / 180

/-- The equatorial radius (metres) used by the geodesic area formula. -/
def earthR : ℝ := 6378137

/-- One summand of the geodesic area loop: for an edge from `p1` to `p2`,
`(p2.lng - p1.lng) * d2r * (2 + sin(p1.lat * d2r) + sin(p2.lat * d2r))`. -/
noncomputable def trapezoidTerm (p1 p2 : LatLng) : ℝ :=
  ((p2.lng - p1.lng) * d2r) * (2 + Real.sin (p1.lat * d2r) + Real.sin (p2.lat * d2r))

/-- Modelled from the spec: `L.GeometryUtil.geodesicArea` is Leaflet plugin
code that is not in this repository's sources.  The spec (§4.1) describes it
as "summing signed trapezoids of longitude spans weighted by latitude terms",
scaled to square metres, with the absolute value taken at the end, and
"fewer than 3 points → area = 0, not an error".  The loop pairs each point
`pts[i]` with `pts[(i+1) % n]`, so the partner list is
`pts.drop 1 ++ pts.take 1`. -/
noncomputable def geodesicArea (pts : List LatLng) : ℝ :=
  if 2 < pts.length then
    |((pts.zip (pts.drop 1 ++ pts.take 1)).map fun pr => trapezoidTerm pr.1 pr.2).sum
      * earthR * earthR / 2|
  else 0

/-- The two shapes `layer.getLatLngs()` can return, distinguished in the
source (src/script.js:138) by the dynamic check `Array.isArray(latlngs[0][0])`:
a single polygon is a list of rings, a multi-polygon is a list of polygons,
each a list of rings. -/
inductive LatLngsInput where
  | single : List Ring → LatLngsInput
  | multi : List (List Ring) → LatLngsInput

/-- The `latlngs.forEach(polygon => totalArea += geodesicArea(polygon[0]))`
loop of the multi-polygon branch (src/script.js:139-143).  `polygon[0]` of an
empty polygon is `undefined` in JavaScript and `geodesicArea(undefined)`
throws a `TypeError`; the exception is modelled as `none`. -/
noncomputable def sumFirstRings : List (List Ring) → Option ℝ
  | [] => some 0
  | poly :: rest =>
    match poly with
    | [] => none
    | r :: _ => (sumFirstRings rest).map fun s => geodesicArea r + s

/-- `calculateGeodesicArea` (src/script.js:132-147).  Empty or missing input
returns 0.  The branch is chosen by `Array.isArray(latlngs[0][0])`: when the
first element of a multi-polygon input is an *empty* polygon, `latlngs[0][0]`
is `undefined`, so the source falls into the single-polygon branch and
returns `geodesicArea(latlngs[0])` on the empty list, i.e. 0 — hence the
dedicated `.multi ([] :: _)` case.  The single branch uses only
`latlngs[0]`, the first ring. -/
noncomputable def calculateGeodesicArea : LatLngsInput → Option ℝ
  | .single [] => some 0
  | .multi [] => some 0
  | .multi ([] :: _) => some 0
  | .single (r :: _) => some (geodesicArea r)
  | .multi polys => sumFirstRings polys

/-- Modelled from the spec: `layer.getCenter()` is Leaflet library code not
in this repository's sources.  The spec (§4.2 step 1, Glossary "Centroid")
defines the centre as the simple average of the outer ring's vertex
latitudes and longitudes. -/
noncomputable def getCenter (rings : List Ring) : LatLng :=
  let r := rings.headD []
  ⟨((r.map LatLng.lat).sum) / r.length, ((r.map LatLng.lng).sum) / r.length⟩

/-- `rescalePolygon` (src/script.js:99-121) on a single-polygon layer.
It reads the centre, computes the current projected area of the layer's
geometry, returns the geometry unchanged when that area is 0, and otherwise
replaces the whole geometry by the first ring (`layer.getLatLngs()[0]`)
scaled around the centre by `sqrt(trueArea / currentProjectedArea)`:
`setLatLngs` with a flat list of points installs exactly one ring. -/
noncomputable def rescalePolygon (rings : List Ring) (trueArea : ℝ) : List Ring :=
  let center := getCenter rings
  let currentProjectedArea := (calculateGeodesicArea (.single rings)).getD 0
  if currentProjectedArea = 0 then rings
  else
    let scaleFactor := Real.sqrt (trueArea / currentProjectedArea)
    [(rings.headD []).map fun latlng =>
      ⟨center.lat + (latlng.lat - center.lat) * scaleFactor,
       center.lng + (latlng.lng - center.lng) * scaleFactor⟩]

/-- One `mousemove` step of `enableDragging` (src/script.js:164-178):
translate the first ring (`layer.getLatLngs()[0]`) by the pointer delta,
install it as the layer's only ring via `setLatLngs`, then fire the `drag`
event, whose handler (src/script.js:85-88) calls `rescalePolygon` with the
stored `trueArea`. -/
noncomputable def dragStep (rings : List Ring) (latDelta lngDelta trueArea : ℝ) : List Ring :=
  let moved := [(rings.headD []).map fun latlng =>
    ⟨latlng.lat + latDelta, latlng.lng + lngDelta⟩]
  rescalePolygon moved trueArea

/-- The per-country record stored in `selectedCountries`
(src/script.js:79-82): the draggable layer's geometry and the frozen
`trueArea`. -/
structure SelectedShape where
  rings : List Ring
  trueArea : ℝ

/-- `selectCountry` (src/script.js:55-92) on a single-polygon feature:
compute `trueArea` once from the original geometry, create the draggable
copy, and run the initial `rescalePolygon` with that `trueArea`. -/
noncomputable def selectShape (latlngs : List Ring) : SelectedShape :=
  let trueArea := (calculateGeodesicArea (.single latlngs)).getD 0
  { rings := rescalePolygon latlngs trueArea, trueArea := trueArea }

/-- A drag event on a selected shape: the geometry is updated by `dragStep`,
which passes the shape's stored `trueArea` to `rescalePolygon`
(src/script.js:85-88); the stored record itself keeps its `trueArea`. -/
noncomputable def dragEvent (s : SelectedShape) (d : ℝ × ℝ) : SelectedShape :=
  { s with rings := dragStep s.rings d.1 d.2 s.trueArea }

/-- A whole drag gesture: the drag events are processed in order. -/
noncomputable def dragEvents (s : SelectedShape) (ds : List (ℝ × ℝ)) : SelectedShape :=
  ds.foldl dragEvent s

/-- Follows the spec's words for claim C2 ("sum the absolute areas of each
ring independently", no ring omitted, none subtracted), to be compared with
`calculateGeodesicArea`. -/
noncomputable def specSumAllRings (polys : List (List Ring)) : ℝ :=
  (polys.map fun poly => (poly.map fun r => |geodesicArea r|).sum).sum

/-- Follows claim C5's words: the result keeps only the scaled first ring,
but with the scale factor computed from the area of ALL rings, to be
compared with `rescalePolygon`. -/
noncomputable def claimRescaleAllRings (rings : List Ring) (trueArea : ℝ) : List Ring :=
  let center := getCenter rings
  let allArea := (rings.map geodesicArea).sum
  let scaleFactor := Real.sqrt (trueArea / allArea)
  [(rings.headD []).map fun latlng =>
    ⟨center.lat + (latlng.lat - center.lat) * scaleFactor,
     center.lng + (latlng.lng - center.lng) * scaleFactor⟩]

/-! ### Concrete geometries used as witnesses and counterexamples

`ring0` is a 60°-wide quadrilateral between latitudes −30° and 30°; its lat
and lng averages are 0 and 30, and all its latitudes (and those of its image
under scaling by 3 about the centroid, `ring0scaled`) have exactly known
sines.  `zring` is a collinear ring on the equator, of area 0. -/

/-- Quadrilateral ring with corners at latitudes ±30° and longitudes 0°/60°. -/
def ring0 : Ring := [⟨-30, 0⟩, ⟨-30, 60⟩, ⟨30, 60⟩, ⟨30, 0⟩]

/-- The image of `ring0` under scaling by 3 around its centroid ⟨0, 30⟩. -/
def ring0scaled : Ring := [⟨-90, -60⟩, ⟨-90, 120⟩, ⟨90, 120⟩, ⟨90, -60⟩]

/-- A degenerate (collinear, on the equator) three-point ring of area 0. -/
def zring : Ring := [⟨0, 0⟩, ⟨0, 1⟩, ⟨0, 2⟩]

/-- The geodesic area of `ring0` in this model: π/3 · R². -/
noncomputable def A0 : ℝ := Real.pi / 3 * (earthR * earthR)

/-! ### Evaluation lemmas for the concrete geometries -/

lemma sin_d2r_30 : Real.sin (30 * d2r) = 1 / 2 := by
  rw [show (30 : ℝ) * d2r = Real.pi / 6 by unfold d2r; ring, Real.sin_pi_div_six]

lemma sin_d2r_neg30 : Real.sin (-30 * d2r) = -(1 / 2) := by
  rw [show (-30 : ℝ) * d2r = -(Real.pi / 6) by unfold d2r; ring, Real.sin_neg,
    Real.sin_pi_div_six]

lemma sin_d2r_90 : Real.sin (90 * d2r) = 1 := by
  rw [show (90 : ℝ) * d2r = Real.pi / 2 by unfold d2r; ring, Real.sin_pi_div_two]

lemma sin_d2r_neg90 : Real.sin (-90 * d2r) = -1 := by
  rw [show (-90 : ℝ) * d2r = -(Real.pi / 2) by unfold d2r; ring, Real.sin_neg,
    Real.sin_pi_div_two]

lemma A0_pos : 0 < A0 := by
  unfold A0 earthR
  positivity

lemma geodesicArea_ring0 : geodesicArea ring0 = A0 := by
  unfold geodesicArea ring0 A0
  rw [if_pos (by simp)]
  simp only [List.drop, List.take, List.zip_cons_cons, List.zip_nil_right, List.map_cons,
    List.map_nil, List.sum_cons, List.sum_nil, List.cons_append, List.nil_append,
    trapezoidTerm, sin_d2r_30, sin_d2r_neg30]
  rw [abs_eq (by unfold earthR; positivity)]
  right
  unfold d2r
  ring

lemma geodesicArea_ring0scaled : geodesicArea ring0scaled = 6 * A0 := by
  unfold geodesicArea ring0scaled A0
  rw [if_pos (by simp)]
  simp only [List.drop, List.take, List.zip_cons_cons, List.zip_nil_right, List.map_cons,
    List.map_nil, List.sum_cons, List.sum_nil, List.cons_append, List.nil_append,
    trapezoidTerm, sin_d2r_90, sin_d2r_neg90]
  rw [abs_eq (by unfold earthR; positivity)]
  right
  unfold d2r
  ring

lemma geodesicArea_zring : geodesicArea zring = 0 := by
  unfold geodesicArea zring
  rw [if_pos (by simp)]
  simp only [List.drop, List.take, List.zip_cons_cons, List.zip_nil_right, List.map_cons,
    List.map_nil, List.sum_cons, List.sum_nil, List.cons_append, List.nil_append,
    trapezoidTerm, zero_mul, Real.sin_zero]
  rw [abs_eq_zero]
  ring

lemma calc_single_cons (r : Ring) (rest : List Ring) :
    calculateGeodesicArea (.single (r :: rest)) = some (geodesicArea r) := rfl

lemma calc_single_ring0 (rest : List Ring) :
    calculateGeodesicArea (.single (ring0 :: rest)) = some A0 := by
  rw [calc_single_cons, geodesicArea_ring0]

lemma getCenter_ring0 (rest : List Ring) : getCenter (ring0 :: rest) = ⟨0, 30⟩ := by
  unfold getCenter ring0
  simp [LatLng.mk.injEq]
  norm_num

lemma sqrt_nine : Real.sqrt 9 = 3 := by
  rw [show (9 : ℝ) = 3 ^ 2 by norm_num, Real.sqrt_sq (by norm_num : (0 : ℝ) ≤ 3)]

lemma rescale_ring0_cons (rest : List Ring) :
    rescalePolygon (ring0 :: rest) (9 * A0) = [ring0scaled] := by
  unfold rescalePolygon
  rw [calc_single_ring0]
  simp only [Option.getD_some, List.headD_cons, getCenter_ring0]
  rw [if_neg A0_pos.ne', mul_div_assoc, div_self A0_pos.ne', mul_one, sqrt_nine]
  unfold ring0 ring0scaled
  simp only [List.map_cons, List.map_nil, LatLng.mk.injEq, List.cons.injEq]
  norm_num

/-! ### General lemmas about the embedded code -/

lemma geodesicArea_nonneg (pts : List LatLng) : 0 ≤ geodesicArea pts := by
  unfold geodesicArea
  split
  · exact abs_nonneg _
  · exact le_refl 0

lemma geodesicArea_short (pts : List LatLng) (h : pts.length < 3) : geodesicArea pts = 0 := by
  unfold geodesicArea
  rw [if_neg (by omega)]

lemma sumFirstRings_nonneg :
    ∀ (polys : List (List Ring)) (s : ℝ), sumFirstRings polys = some s → 0 ≤ s
  | [], s, h => by
    simp only [sumFirstRings, Option.some.injEq] at h
    exact le_of_eq h
  | [] :: rest, s, h => by
    simp only [sumFirstRings] at h
    exact Option.noConfusion h
  | (r :: rs) :: rest, s, h => by
    rw [sumFirstRings] at h
    cases hrest : sumFirstRings rest with
    | none => rw [hrest] at h; simp at h
    | some srest =>
      rw [hrest] at h
      simp only [Option.map_some', Option.some.injEq] at h
      have h1 := geodesicArea_nonneg r
      have h2 := sumFirstRings_nonneg rest srest hrest
      linarith [le_of_eq h.symm]

/-- If the first ring's area is nonzero, `rescalePolygon` with target equal
to that area is the identity up to dropping the rings after the first:
the scale factor is `sqrt(T/T) = 1`. -/
lemma rescalePolygon_self (r : Ring) (rest : List Ring) (T : ℝ)
    (hr : geodesicArea r = T) (hT : T ≠ 0) : rescalePolygon (r :: rest) T = [r] := by
  unfold rescalePolygon
  rw [calc_single_cons]
  simp only [Option.getD_some, List.headD_cons, hr]
  rw [if_neg hT, div_self hT, Real.sqrt_one]
  have hf : ∀ p : LatLng,
      (⟨(getCenter (r :: rest)).lat + (p.lat - (getCenter (r :: rest)).lat) * 1,
        (getCenter (r :: rest)).lng + (p.lng - (getCenter (r :: rest)).lng) * 1⟩ : LatLng)
        = p := by
    intro p
    cases p with
    | mk lat lng => simp only [LatLng.mk.injEq]; constructor <;> ring
  rw [List.map_congr_left fun p _ => hf p]
  simp

/-! ### Claim theorems -/

/-- Claim C1, counterexample: the ring `ring0` has non-zero area, yet after
`rescalePolygon(ring0, T)` with `T = 9 · area(ring0)` the recomputed area is
`6 · area(ring0)`, a relative error of 1/3, far above 1e-6.  Linear
component-wise scaling of latitudes does not scale the sin-weighted geodesic
area by the square of the scale factor. -/
theorem rescale_area_misses_target :
    (calculateGeodesicArea (.single [ring0])).getD 0 ≠ 0 ∧
    ¬ |(calculateGeodesicArea (.single (rescalePolygon [ring0] (9 * A0)))).getD 0 - 9 * A0| /
        (9 * A0) < 1 / 1000000 := by
  constructor
  · rw [calc_single_ring0, Option.getD_some]
    exact A0_pos.ne'
  · rw [rescale_ring0_cons, calc_single_cons, Option.getD_some, geodesicArea_ring0scaled]
    have h1 : |6 * A0 - 9 * A0| = 3 * A0 := by
      rw [show 6 * A0 - 9 * A0 = -(3 * A0) by ring, abs_neg,
        abs_of_nonneg (by linarith [A0_pos] : (0 : ℝ) ≤ 3 * A0)]
    have h9 : (0 : ℝ) < 9 * A0 := by linarith [A0_pos]
    rw [h1]
    have h2 : 3 * A0 / (9 * A0) = 1 / 3 := by
      rw [div_eq_div_iff h9.ne' (by norm_num : (3 : ℝ) ≠ 0)]
      ring
    rw [h2]
    norm_num

/-- Claim C1, amended: immediately after `rescale(ring, T)` the recomputed
area equals `T` exactly when the pre-rescale area already equals `T` (the
scale factor is then `sqrt(T/T) = 1` and the first ring is unchanged); for a
pre-rescale area different from `T` the linear vertex scaling does not in
general bring the recomputed geodesic area within relative error 1e-6 of
`T`. -/
theorem rescale_area_exact_of_area_eq_target (rings : List Ring) (T : ℝ)
    (hA : (calculateGeodesicArea (.single rings)).getD 0 = T) (hT : T ≠ 0) :
    (calculateGeodesicArea (.single (rescalePolygon rings T))).getD 0 = T := by
  cases rings with
  | nil =>
    have h0 : (calculateGeodesicArea (.single ([] : List Ring))).getD 0 = 0 := rfl
    rw [h0] at hA
    exact absurd hA.symm hT
  | cons r rest =>
    rw [calc_single_cons, Option.getD_some] at hA
    rw [rescalePolygon_self r rest T hA hT, calc_single_cons, Option.getD_some, hA]

/-- Witness for C1's amended theorem at `rings = [ring0]`, `T = A0`. -/
theorem rescale_area_exact_of_area_eq_target_witness :
    ((calculateGeodesicArea (.single [ring0])).getD 0 = A0 ∧ A0 ≠ 0) ∧
    (calculateGeodesicArea (.single (rescalePolygon [ring0] A0))).getD 0 = A0 := by
  have hA : (calculateGeodesicArea (.single [ring0])).getD 0 = A0 := by
    rw [calc_single_ring0, Option.getD_some]
  exact ⟨⟨hA, A0_pos.ne'⟩, rescale_area_exact_of_area_eq_target [ring0] A0 hA A0_pos.ne'⟩

/-- Claim C3, confirmed: when the computed current area is 0,
`rescalePolygon` returns before touching the geometry, so the rings are
returned unchanged (the model is a total function, so no exception
arises). -/
theorem rescale_noop_of_zero_area (rings : List Ring) (T : ℝ)
    (h : (calculateGeodesicArea (.single rings)).getD 0 = 0) :
    rescalePolygon rings T = rings := by
  unfold rescalePolygon
  rw [h, if_pos rfl]

/-- Witness for C3's theorem at the zero-area collinear ring `zring`. -/
theorem rescale_noop_of_zero_area_witness :
    (calculateGeodesicArea (.single [zring])).getD 0 = 0 ∧
    rescalePolygon [zring] 5 = [zring] := by
  have hz : (calculateGeodesicArea (.single [zring])).getD 0 = 0 := by
    rw [calc_single_cons, Option.getD_some]
    exact geodesicArea_zring
  exact ⟨hz, rescale_noop_of_zero_area [zring] 5 hz⟩

/-- Claim C4, confirmed: with non-zero current area `A`, every vertex `v` of
the first ring is mapped to `center + (v - center) * sqrt(T / A)`,
component-wise and independently on latitude and longitude, with `center`
the centroid; the result consists of exactly that mapped ring and nothing
else is done to the vertices. -/
theorem rescale_vertex_formula (rings : List Ring) (T : ℝ)
    (h : (calculateGeodesicArea (.single rings)).getD 0 ≠ 0) :
    rescalePolygon rings T =
      [(rings.headD []).map fun v =>
        ⟨(getCenter rings).lat + (v.lat - (getCenter rings).lat) *
            Real.sqrt (T / (calculateGeodesicArea (.single rings)).getD 0),
         (getCenter rings).lng + (v.lng - (getCenter rings).lng) *
            Real.sqrt (T / (calculateGeodesicArea (.single rings)).getD 0)⟩] := by
  unfold rescalePolygon
  rw [if_neg h]

/-- Witness for C4's theorem at `rings = [ring0]`, `T = 7`. -/
theorem rescale_vertex_formula_witness :
    (calculateGeodesicArea (.single [ring0])).getD 0 ≠ 0 ∧
    rescalePolygon [ring0] 7 =
      [(([ring0] : List Ring).headD []).map fun v =>
        ⟨(getCenter [ring0]).lat + (v.lat - (getCenter [ring0]).lat) *
            Real.sqrt (7 / (calculateGeodesicArea (.single [ring0])).getD 0),
         (getCenter [ring0]).lng + (v.lng - (getCenter [ring0]).lng) *
            Real.sqrt (7 / (calculateGeodesicArea (.single [ring0])).getD 0)⟩] := by
  have h : (calculateGeodesicArea (.single [ring0])).getD 0 ≠ 0 := by
    rw [calc_single_ring0, Option.getD_some]
    exact A0_pos.ne'
  exact ⟨h, rescale_vertex_formula [ring0] 7 h⟩

/-- Claim C5, counterexample: for the two-ring polygon `[ring0, ring0]` with
target `A0`, the code's result differs from the claim's description, because
the claim asserts the scale factor is derived from the area of ALL rings
(here `2·A0`, giving factor `sqrt(1/2)`), while the code derives it from the
first ring alone (here `A0`, giving factor 1). -/
theorem rescale_not_scaled_from_all_rings :
    rescalePolygon [ring0, ring0] A0 ≠ claimRescaleAllRings [ring0, ring0] A0 := by
  rw [rescalePolygon_self ring0 [ring0] A0 geodesicArea_ring0 A0_pos.ne']
  unfold claimRescaleAllRings
  rw [getCenter_ring0]
  simp only [List.headD_cons, List.map_cons, List.map_nil, List.sum_cons, List.sum_nil,
    geodesicArea_ring0]
  have harea : A0 / (A0 + (A0 + 0)) = 1 / 2 := by
    rw [div_eq_div_iff (by linarith [A0_pos]) (by norm_num : (2 : ℝ) ≠ 0)]
    ring
  rw [harea]
  have hs : Real.sqrt (1 / 2) < 1 := by
    have := Real.sqrt_lt_sqrt (by norm_num : (0 : ℝ) ≤ 1 / 2) (by norm_num : (1 : ℝ) / 2 < 1)
    rwa [Real.sqrt_one] at this
  intro h
  rw [ring0, List.cons.injEq] at h
  have h1 := h.1
  rw [List.map_cons, List.cons.injEq, LatLng.mk.injEq] at h1
  have h2 := h1.1.1
  nlinarith [h2, hs, Real.sqrt_nonneg (1 / 2 : ℝ)]

/-- Claim C5, amended: when the first ring's area is non-zero, rescaling a
polygon with several rings is identical to rescaling its first ring alone —
every ring after the first is discarded from the result AND contributes
nothing to the current area or the scale factor, since the single-polygon
branch of `calculateGeodesicArea` reads only `latlngs[0]`. -/
theorem rescale_ignores_later_rings (r : Ring) (rest : List Ring) (T : ℝ)
    (h : geodesicArea r ≠ 0) :
    rescalePolygon (r :: rest) T = rescalePolygon [r] T := by
  unfold rescalePolygon
  rw [calc_single_cons, calc_single_cons]
  simp only [Option.getD_some, List.headD_cons]
  rw [if_neg h, if_neg h]
  unfold getCenter
  simp only [List.headD_cons]

/-- Witness for C5's amended theorem: a second ring `zring` changes nothing. -/
theorem rescale_ignores_later_rings_witness :
    geodesicArea ring0 ≠ 0 ∧
    rescalePolygon [ring0, zring] (9 * A0) = rescalePolygon [ring0] (9 * A0) := by
  have h : geodesicArea ring0 ≠ 0 := by
    rw [geodesicArea_ring0]
    exact A0_pos.ne'
  exact ⟨h, rescale_ignores_later_rings ring0 [zring] (9 * A0) h⟩

/-- The multi-polygon branch of `calculateGeodesicArea` on a non-degenerate
input: the sum of the (absolute) areas of the FIRST ring of each polygon. -/
lemma sumFirstRings_eval :
    ∀ (polys : List (List Ring)), (∀ poly ∈ polys, poly ≠ []) →
      sumFirstRings polys = some ((polys.map fun poly => |geodesicArea (poly.headD [])|).sum)
  | [], _ => by simp [sumFirstRings]
  | [] :: rest, h => absurd rfl (h [] (List.mem_cons_self _ _))
  | (r :: rs) :: rest, h => by
    rw [sumFirstRings, sumFirstRings_eval rest fun p hp => h p (List.mem_cons_of_mem _ hp)]
    simp only [Option.map_some', Option.some.injEq, List.map_cons, List.sum_cons,
      List.headD_cons]
    rw [abs_of_nonneg (geodesicArea_nonneg r)]

/-- Claim C2, counterexample: for the multi-polygon `[[ring0, ring0]]` — one
polygon whose hole ring `ring0` has non-zero area — the code returns `A0`
(first ring only) while the claim's "sum of the absolute areas of each ring,
no ring omitted" gives `2·A0`. -/
theorem area_multi_omits_second_ring :
    calculateGeodesicArea (.multi [[ring0, ring0]]) ≠ some (specSumAllRings [[ring0, ring0]]) := by
  have hL : calculateGeodesicArea (.multi [[ring0, ring0]]) = some A0 := by
    show sumFirstRings [[ring0, ring0]] = some A0
    rw [sumFirstRings, sumFirstRings]
    simp only [Option.map_some', Option.some.injEq, geodesicArea_ring0]
    ring
  rw [hL]
  unfold specSumAllRings
  simp only [List.map_cons, List.map_nil, List.sum_cons, List.sum_nil, geodesicArea_ring0,
    abs_of_nonneg A0_pos.le, Ne, Option.some.injEq]
  intro h
  nlinarith [A0_pos, h]

/-- Claim C2, amended: for a multi-polygon input all of whose polygons are
non-empty, the area function returns the sum of the absolute areas of the
FIRST ring of each polygon; rings after the first in each polygon (holes)
are omitted from the sum — neither added nor subtracted. -/
theorem area_multi_sums_first_rings (polys : List (List Ring))
    (h : ∀ poly ∈ polys, poly ≠ []) :
    calculateGeodesicArea (.multi polys) =
      some ((polys.map fun poly => |geodesicArea (poly.headD [])|).sum) := by
  match polys, h with
  | [], _ => simp [calculateGeodesicArea]
  | [] :: rest, h => exact absurd rfl (h [] (List.mem_cons_self _ _))
  | (r :: rs) :: rest, h =>
    show sumFirstRings ((r :: rs) :: rest) = _
    exact sumFirstRings_eval ((r :: rs) :: rest) h

/-- Witness for C2's amended theorem at `polys = [[zring], [zring]]`. -/
theorem area_multi_sums_first_rings_witness :
    (∀ poly ∈ [[zring], [zring]], poly ≠ ([] : List Ring)) ∧
    calculateGeodesicArea (.multi [[zring], [zring]]) =
      some (([[zring], [zring]].map fun poly =>
        |geodesicArea (poly.headD ([] : Ring))|).sum) := by
  have h : ∀ poly ∈ [[zring], [zring]], poly ≠ ([] : List Ring) := by
    intro p hp
    rcases List.mem_cons.mp hp with h1 | h1
    · rw [h1]; exact List.cons_ne_nil _ _
    · rcases List.mem_cons.mp h1 with h2 | h2
      · rw [h2]; exact List.cons_ne_nil _ _
      · exact absurd h2 (List.not_mem_nil _)
  exact ⟨h, area_multi_sums_first_rings [[zring], [zring]] h⟩

/-- Claim C6, confirmed: an empty input (in either shape), an empty ring,
and any ring with fewer than 3 points all yield area 0, with no error (the
value is `some 0`, never `none`). -/
theorem area_degenerate_zero :
    calculateGeodesicArea (.single []) = some 0 ∧
    calculateGeodesicArea (.multi []) = some 0 ∧
    calculateGeodesicArea (.single [([] : Ring)]) = some 0 ∧
    ∀ (r : Ring) (rest : List Ring), r.length < 3 →
      calculateGeodesicArea (.single (r :: rest)) = some 0 := by
  refine ⟨rfl, rfl, ?_, ?_⟩
  · rw [calc_single_cons, geodesicArea_short ([] : Ring) (by simp)]
  · intro r rest hr
    rw [calc_single_cons, geodesicArea_short r hr]

/-- Witness for C6's theorem at a two-point ring. -/
theorem area_degenerate_zero_witness :
    ([⟨1, 2⟩, ⟨3, 4⟩] : Ring).length < 3 ∧
    calculateGeodesicArea (.single [[⟨1, 2⟩, ⟨3, 4⟩]]) = some 0 := by
  have hl : ([⟨1, 2⟩, ⟨3, 4⟩] : Ring).length < 3 := by simp
  exact ⟨hl, area_degenerate_zero.2.2.2 [⟨1, 2⟩, ⟨3, 4⟩] [] hl⟩

/-- Claim C7, confirmed: whenever the area function returns a value, that
value is nonnegative — each ring contributes an absolute value (or 0 for
short rings), and the multi-polygon branch sums such contributions. -/
theorem area_nonneg_of_some (input : LatLngsInput) (a : ℝ)
    (h : calculateGeodesicArea input = some a) : 0 ≤ a := by
  match input, h with
  | .single [], h =>
    rw [show calculateGeodesicArea (.single []) = some 0 from rfl,
      Option.some.injEq] at h
    exact le_of_eq h
  | .single (r :: rest), h =>
    rw [calc_single_cons, Option.some.injEq] at h
    exact h ▸ geodesicArea_nonneg r
  | .multi [], h =>
    rw [show calculateGeodesicArea (.multi []) = some 0 from rfl,
      Option.some.injEq] at h
    exact le_of_eq h
  | .multi ([] :: rest), h =>
    rw [show calculateGeodesicArea (.multi ([] :: rest)) = some 0 from rfl,
      Option.some.injEq] at h
    exact le_of_eq h
  | .multi ((r :: rs) :: rest), h =>
    exact sumFirstRings_nonneg ((r :: rs) :: rest) a h

/-- Witness for C7's theorem at the empty single input. -/
theorem area_nonneg_of_some_witness :
    calculateGeodesicArea (.single []) = some 0 ∧ (0 : ℝ) ≤ 0 :=
  ⟨rfl, area_nonneg_of_some (.single []) 0 rfl⟩

lemma trapezoidTerm_shift (c : ℝ) (p1 p2 : LatLng) :
    trapezoidTerm ⟨p1.lat, p1.lng + c⟩ ⟨p2.lat, p2.lng + c⟩ = trapezoidTerm p1 p2 := by
  unfold trapezoidTerm
  dsimp only
  ring

lemma geodesicArea_shiftLng (r : Ring) (c : ℝ) :
    geodesicArea (r.map fun p => ⟨p.lat, p.lng + c⟩) = geodesicArea r := by
  unfold geodesicArea
  rw [List.length_map]
  split
  · rw [← List.map_drop, ← List.map_take, ← List.map_append, List.zip_map, List.map_map]
    have hfun : ((fun pr : LatLng × LatLng => trapezoidTerm pr.1 pr.2) ∘
        Prod.map (fun p : LatLng => (⟨p.lat, p.lng + c⟩ : LatLng))
          (fun p : LatLng => (⟨p.lat, p.lng + c⟩ : LatLng)))
        = fun pr : LatLng × LatLng => trapezoidTerm pr.1 pr.2 := by
      funext pr
      exact trapezoidTerm_shift c pr.1 pr.2
    rw [hfun]
  · rfl

/-- Claim C8, confirmed: adding a constant offset to every point's longitude
leaves the area unchanged — each loop summand depends on longitudes only
through the difference `p2.lng - p1.lng`.  The model has no ±180° seam, so
the invariance holds for every offset, in particular for the
non-seam-crossing ones the claim quantifies over. -/
theorem area_invariant_under_lng_shift (r : Ring) (c : ℝ) :
    calculateGeodesicArea (.single [r.map fun p => ⟨p.lat, p.lng + c⟩]) =
      calculateGeodesicArea (.single [r]) := by
  rw [calc_single_cons, calc_single_cons, geodesicArea_shiftLng]

/-- Claim C9, counterexample: a selected shape whose current projected area
(`A0`) differs from its stored true area (`9·A0`) is NOT a fixed point of
the null-move-then-rescale step: the drag step's rescale multiplies the ring
about its centroid by `sqrt(9) = 3`. -/
theorem null_drag_changes_shape : dragStep [ring0] 0 0 (9 * A0) ≠ [ring0] := by
  have hid : ∀ p : LatLng, (⟨p.lat + 0, p.lng + 0⟩ : LatLng) = p := by
    intro p; cases p; simp
  have hmv : dragStep [ring0] 0 0 (9 * A0) = rescalePolygon [ring0] (9 * A0) := by
    unfold dragStep
    dsimp only
    rw [List.map_congr_left fun p _ => hid p]
    simp
  rw [hmv, rescale_ring0_cons]
  intro h
  rw [List.cons.injEq] at h
  have h1 := h.1
  rw [ring0scaled, ring0, List.cons.injEq, LatLng.mk.injEq] at h1
  norm_num at h1

/-- Claim C9, amended: the null-move drag step (which itself performs the
rescale) is a fixed point on the first ring exactly when the shape's current
projected area equals the stored true area: the shape is then replaced by
its unchanged first ring.  When current area and true area differ — which
the rescale step does not exactly prevent — the vertices move. -/
theorem null_drag_fixed_of_area_eq_trueArea (rings : List Ring) (T : ℝ)
    (hA : (calculateGeodesicArea (.single rings)).getD 0 = T) (hT : T ≠ 0) :
    dragStep rings 0 0 T = [rings.headD []] := by
  cases rings with
  | nil =>
    have h0 : (calculateGeodesicArea (.single ([] : List Ring))).getD 0 = 0 := rfl
    rw [h0] at hA
    exact absurd hA.symm hT
  | cons r rest =>
    rw [calc_single_cons, Option.getD_some] at hA
    have hid : ∀ p : LatLng, (⟨p.lat + 0, p.lng + 0⟩ : LatLng) = p := by
      intro p; cases p; simp
    unfold dragStep
    dsimp only
    rw [List.map_congr_left fun p _ => hid p]
    simp only [List.headD_cons]
    have hr : List.map (fun p : LatLng => p) r = r := by simp
    rw [hr]
    exact rescalePolygon_self r [] T hA hT

/-- Witness for C9's amended theorem at `rings = [ring0]`, `T = A0`. -/
theorem null_drag_fixed_of_area_eq_trueArea_witness :
    ((calculateGeodesicArea (.single [ring0])).getD 0 = A0 ∧ A0 ≠ 0) ∧
    dragStep [ring0] 0 0 A0 = [([ring0] : List Ring).headD []] := by
  have hA : (calculateGeodesicArea (.single [ring0])).getD 0 = A0 := by
    rw [calc_single_ring0, Option.getD_some]
  exact ⟨⟨hA, A0_pos.ne'⟩, null_drag_fixed_of_area_eq_trueArea [ring0] A0 hA A0_pos.ne'⟩

lemma dragEvents_trueArea (ds : List (ℝ × ℝ)) :
    ∀ s : SelectedShape, (dragEvents s ds).trueArea = s.trueArea := by
  induction ds with
  | nil => intro s; rfl
  | cons d ds ih =>
    intro s
    rw [show dragEvents s (d :: ds) = dragEvents (dragEvent s d) ds from rfl, ih]
    rfl

/-- Claim C10, confirmed: `trueArea` is computed once from the original,
unmodified geometry at selection time; after any sequence of drag events —
each of which hands exactly the stored `trueArea` to `rescalePolygon` — the
stored value still equals the area of the original geometry, never one
recomputed from moved or rescaled coordinates. -/
theorem trueArea_frozen_at_selection (latlngs : List Ring) (ds : List (ℝ × ℝ)) :
    (dragEvents (selectShape latlngs) ds).trueArea =
      (calculateGeodesicArea (.single latlngs)).getD 0 := by
  rw [dragEvents_trueArea]
  rfl

end TrueSize
